import Mathlib

/-!
Verification development for the vmmap-for-Darling translation layer.

The C++ sources embedded here:
* the procfs reader `Map` (header/detail line parsing, two-pass
  mapped-file reclassification) and its helpers `ParseSize`, `MakeTagSet`,
  `LinuxToVmmap`, `BadPid`, `BadPerm`;
* the aggregation loops of `PrintSummary` and `PrintMalloc` from print.cpp.

Machine integers (`size_t`, `unsigned long long`) are modelled as `Nat`
with explicit reduction modulo `2 ^ 64`; `intptr_t` is modelled as `Int`
obtained from the 64-bit unsigned value by two's-complement reinterpretation.
Fallible C++ code (functions that may throw) is modelled in `Except String`.
-/

namespace Vmmap

/-- `2 ^ 64`, the modulus of `size_t` and `unsigned long long` arithmetic. -/
def U64 : Nat := 2 ^ 64

/-- `2 ^ 63`, used for the two's-complement reinterpretation of `intptr_t`. -/
def I64HALF : Nat := 2 ^ 63

/-- Reinterpret a 64-bit unsigned value as a signed `intptr_t`
(two's complement, as gcc/clang do for the out-of-range conversion). -/
def toIntptr (n : Nat) : Int :=
  if n < I64HALF then (n : Int) else (n : Int) - (U64 : Int)

/-- `size_t` subtraction of two `intptr_t` values: the mathematical
difference reduced modulo `2 ^ 64` (always non-negative). -/
def usub64 (a b : Int) : Nat :=
  ((a - b) % (U64 : Int)).toNat

/-- `size_t` addition (wrap-around at `2 ^ 64`). -/
def addU64 (a b : Nat) : Nat := (a + b) % U64

/-- The whitespace class used both by `std::regex`'s `\s` and by
`istream` skipping (space, tab, newline, vertical tab, form feed, return). -/
def isWsChar (c : Char) : Bool :=
  [' ', '\t', '\n', '\x0b', '\x0c', '\r'].contains c

/-- The character class `[0-9a-fA-F]` of the header regex. -/
def hexDigit (c : Char) : Bool :=
  c.isDigit || ('a' ≤ c && c ≤ 'f') || ('A' ≤ c && c ≤ 'F')

/-- The character class `[rwxsp-]` of the header regex. -/
def permChar (c : Char) : Bool :=
  c == 'r' || c == 'w' || c == 'x' || c == 's' || c == 'p' || c == '-'

/-- Value of a decimal digit character. -/
def digitVal (c : Char) : Nat := c.toNat - '0'.toNat

/-- Value of a hexadecimal digit character. -/
def hexVal (c : Char) : Nat :=
  if c.isDigit then c.toNat - '0'.toNat
  else if 'a' ≤ c && c ≤ 'f' then c.toNat - 'a'.toNat + 10
  else c.toNat - 'A'.toNat + 10

/-- Numeric value of a decimal digit string. -/
def digitsToNat (ds : List Char) : Nat :=
  ds.foldl (fun a c => a * 10 + digitVal c) 0

/-- Numeric value of a hexadecimal digit string. -/
def hexToNat (ds : List Char) : Nat :=
  ds.foldl (fun a c => a * 16 + hexVal c) 0

/-- `std::stoull(s, nullptr, 16)` applied to a capture of the class
`[0-9a-fA-F]*`: throws `invalid_argument` on the empty string and
`out_of_range` when the value does not fit in `unsigned long long`. -/
def stoullHex (s : List Char) : Except String Nat :=
  if s = [] then .error "invalid_argument"
  else if hexToNat s < U64 then .ok (hexToNat s)
  else .error "out_of_range"

/-- Leading-sign handling of numeric `istream` extraction: consume one
`-` or `+`, reporting whether the value is to be negated. -/
def signSplit (l : List Char) : Bool × List Char :=
  match l with
  | [] => (false, [])
  | c :: t =>
    if c = '-' then (true, t)
    else if c = '+' then (false, t)
    else (false, c :: t)

/-- `istream >> (size_t&)`: skip whitespace, read an optional sign and a
decimal digit run.  No digits or an out-of-range magnitude set `failbit`
(modelled as `none`); a minus sign negates modulo `2 ^ 64`. -/
def extractULL (l : List Char) : Option (Nat × List Char) :=
  let p := signSplit (l.dropWhile isWsChar)
  let ds := p.2.takeWhile Char.isDigit
  let r := p.2.dropWhile Char.isDigit
  if ds = [] then none
  else if digitsToNat ds < U64 then
    some ((if p.1 then (U64 - digitsToNat ds % U64) % U64 else digitsToNat ds), r)
  else none

/-- `istream >> (std::string&)`: skip whitespace, read a maximal
run of non-whitespace characters (possibly empty at end of input). -/
def extractToken (l : List Char) : List Char × List Char :=
  let l1 := l.dropWhile isWsChar
  (l1.takeWhile (fun c => !isWsChar c), l1.dropWhile (fun c => !isWsChar c))

/-- `ParseSize` from the reader: `ss >> num >> unit` on the attribute value,
then multiply by the recognized unit (in `size_t` arithmetic, i.e. modulo
`2 ^ 64`) or throw.  When numeric extraction fails the stream is in a failed
state, the unit remains empty and the function falls through to the throw. -/
def ParseSize (size : String) : Except String Nat :=
  let num : Nat :=
    match extractULL size.data with
    | some p => p.1
    | none => 0
  let unit : List Char :=
    match extractULL size.data with
    | some p => (extractToken p.2).1
    | none => []
  if unit = "kB".data then .ok (num * 1024 % U64)
  else if unit = "MB".data then .ok (num * 1024 * 1024 % U64)
  else if unit = "GB".data then .ok (num * 1024 * 1024 * 1024 % U64)
  else .error ("vmmap: Failed to parse size: " ++ size)

/-- Tokenizer for `MakeTagSet`: the maximal non-whitespace runs of a
character list (accumulator holds the current run, reversed). -/
def wsTokens : List Char → List Char → List (List Char)
  | [], acc => if acc = [] then [] else [acc.reverse]
  | c :: r, acc =>
    if isWsChar c then
      if acc = [] then wsTokens r [] else acc.reverse :: wsTokens r []
    else wsTokens r (c :: acc)

/-- `MakeTagSet`: the whitespace-separated tokens of a string (the
`unordered_set` is only queried for membership of non-empty tokens, so the
spurious empty token inserted by the `eof` loop is irrelevant and omitted). -/
def MakeTagSet (str : String) : List String :=
  (wsTokens str.data []).map String.mk

/-- Attribute map of a region: association list with
`unordered_map::operator[]`-assignment semantics (overwrite or append). -/
def Tags := List (String × String)

/-- `tags[name] = value`: overwrite an existing binding, else append. -/
def tagsInsert (tags : List (String × String)) (k v : String) :
    List (String × String) :=
  if tags.any (fun p => p.1 == k) then
    tags.map (fun p => if p.1 == k then (k, v) else p)
  else tags ++ [(k, v)]

/-- `tags.count(k) / tags.at(k)` combined: lookup in the attribute map. -/
def tagsLookup (tags : List (String × String)) (k : String) : Option String :=
  (tags.find? (fun p => p.1 == k)).map (fun p => p.2)

/-- `LinuxEntry` from the reader: one raw parsed record.  The C++ scalar
fields are indeterminate until the first header line assigns them; they are
never read before that, so defaulting them to `0` is unobservable.
The source names the second address field `end`, a Lean keyword. -/
structure LinuxEntry where
  start : Int := 0
  endA : Int := 0
  permissions : String := ""
  offset : Int := 0
  dev : String := ""
  inode : String := ""
  description : String := ""
  tags : List (String × String) := []
deriving Repr, DecidableEq

/-- `VmmapEntry` from map.h: one normalized region entry. -/
structure VmmapEntry where
  regionType : String := ""
  startAddress : Int := 0
  endAddress : Int := 0
  vsize : Nat := 0
  rss : Nat := 0
  dirty : Nat := 0
  swap : Nat := 0
  pageSize : Nat := 0
  prt : String := ""
  max : String := ""
  shrmod : String := ""
  purge : String := ""
  regionDetail : String := ""
deriving Repr, DecidableEq

/-- `VmmapSummaryEntry` from map.h: one aggregation bucket. -/
structure VmmapSummaryEntry where
  regionType : String := ""
  vsize : Nat := 0
  rss : Nat := 0
  dirty : Nat := 0
  swap : Nat := 0
  vol : Nat := 0
  nonvol : Nat := 0
  empty : Nat := 0
  regionCount : Nat := 0
deriving Repr, DecidableEq

/-- The permission slot indices from map.h. -/
def READ_INDEX : Nat := 0

/-- Write slot index. -/
def WRITE_INDEX : Nat := 1

/-- Execute slot index. -/
def EXECUTE_INDEX : Nat := 2

/-- `VmmapEntry::IsMalloc`: `strncmp(regionType.c_str(), "MALLOC", 6) == 0`,
i.e. the first six characters of `regionType` are `MALLOC`. -/
def IsMalloc (e : VmmapEntry) : Bool :=
  "MALLOC".data.isPrefixOf e.regionType.data

/-- `std::stoi` on the tail of a `[stack:N]` description: skip whitespace,
optional sign, decimal digits; `invalid_argument` when no digits,
`out_of_range` when the value does not fit in `int`. -/
def stoiPre (s : List Char) : Except String Int :=
  let p := signSplit (s.dropWhile isWsChar)
  let ds := p.2.takeWhile Char.isDigit
  if ds = [] then .error "invalid_argument"
  else
    let v : Int := if p.1 then -(digitsToNat ds : Int) else (digitsToNat ds : Int)
    if v < -(2 ^ 31 : Int) || (2 ^ 31 : Int) - 1 < v then .error "out_of_range"
    else .ok v

/-- Lookup a size attribute and `ParseSize` it, with a fallback value when
the attribute is absent (the `tags.count(...) ? ParseSize(tags.at(...)) : d`
pattern of `LinuxToVmmap`). -/
def getSizeTag (tags : List (String × String)) (k : String) (d : Nat) :
    Except String Nat :=
  match tagsLookup tags k with
  | some v => ParseSize v
  | none => .ok d

/-- The region-type classification of `LinuxToVmmap` (first pass, local to
one record): returns `(regionType, regionDetail)`.  `regionDetail` starts as
the description and is rewritten only in the `[stack:N]` branch, where
`std::stoi` may throw. -/
def regionClassify (desc : String) : Except String (String × String) :=
  if desc.data.contains '/' then .ok ("mapped file", desc)
  else if desc == "HEAP" then .ok ("MALLOC", desc)
  else if desc == "[stack]" then .ok ("Stack", desc)
  else if String.mk (desc.data.take 7) == "[stack:" then do
    let id ← stoiPre (desc.data.drop 7)
    .ok ("Stack", "thread " ++ toString id)
  else .ok ("VM_ALLOCATE", desc)

/-- The `max` permission string of `LinuxToVmmap`: `"???"` without a
`VmFlags` attribute, else `"---"` with slots set from the `mr`/`mw`/`me`
tokens. -/
def maxPermOf (tags : List (String × String)) : String :=
  match tagsLookup tags "VmFlags" with
  | none => "???"
  | some fl =>
    let flags := MakeTagSet fl
    String.mk
      [if flags.contains "mr" then 'r' else '-',
       if flags.contains "mw" then 'w' else '-',
       if flags.contains "me" then 'x' else '-']

/-- The `prt` permission string of `LinuxToVmmap`: `"???"` when the
permissions field is empty, else its first three characters. -/
def prtOf (permissions : String) : String :=
  if permissions ≠ "" then String.mk (permissions.data.take 3) else "???"

/-- The dirty-size accumulation of `LinuxToVmmap`: `dirty` starts from the
`Shared_Dirty` contribution and `+=` the parsed `Private_Dirty` when that
attribute is present (in `size_t`). -/
def getDirty (tags : List (String × String)) (sharedDirty : Nat) :
    Except String Nat :=
  match tagsLookup tags "Private_Dirty" with
  | some v => do
    let p ← ParseSize v
    pure (addU64 sharedDirty p)
  | none => pure sharedDirty

/-- `LinuxToVmmap`: convert one raw record to a normalized entry.  All
`size_t` results of `ParseSize` and the `+=` accumulation of the dirty
fields reduce modulo `2 ^ 64`; any `ParseSize`/`stoi` failure aborts
the whole conversion (exception propagation). -/
def LinuxToVmmap (hostPageSize : Nat) (entry : LinuxEntry) :
    Except String VmmapEntry := do
  let pageSize ← getSizeTag entry.tags "KernelPageSize" hostPageSize
  let vsize ← getSizeTag entry.tags "Size" (usub64 entry.endA entry.start)
  let rss ← getSizeTag entry.tags "Rss" vsize
  let sharedDirty ← getSizeTag entry.tags "Shared_Dirty" 0
  let dirty ← getDirty entry.tags sharedDirty
  let swap ← getSizeTag entry.tags "Swap" 0
  let rt ← regionClassify entry.description
  pure
    { startAddress := entry.start
      endAddress := entry.endA
      pageSize := pageSize
      vsize := vsize
      rss := rss
      dirty := dirty
      swap := swap
      prt := prtOf entry.permissions
      max := maxPermOf entry.tags
      shrmod := "NUL"
      purge := ""
      regionType := rt.1
      regionDetail := rt.2 }

/-- The captures of the header-line regex
`([0-9a-fA-F]*)-([0-9a-fA-F]*)\s*([rwxsp-]*)\s*([0-9a-fA-F]*)\s*`
`([0-9a-fA-F]*):([0-9a-fA-F]*)\s*([0-9a-fA-F]*)\s*([\S\s]*)`. -/
structure HeaderCaptures where
  a1 : List Char
  a2 : List Char
  perms : List Char
  a4 : List Char
  a5 : List Char
  a6 : List Char
  a7 : List Char
  rest : List Char
deriving Repr, DecidableEq

/-- `std::regex_match` against the header regex.  Because the character
classes of the pattern cannot consume `-` at the `A1` boundary nor `:` at
all, the ECMAScript backtracking engine succeeds exactly when sequential
maximal munch does, and then its greedy captures are the maximal-munch
ones; so the match is computed by maximal munch. -/
def matchHeader (line : String) : Option HeaderCaptures :=
  let l := line.data
  let a1 := l.takeWhile hexDigit
  match l.dropWhile hexDigit with
  | '-' :: r2 =>
    let a2 := r2.takeWhile hexDigit
    let r4 := (r2.dropWhile hexDigit).dropWhile isWsChar
    let perms := r4.takeWhile permChar
    let r6 := (r4.dropWhile permChar).dropWhile isWsChar
    let a4 := r6.takeWhile hexDigit
    let r8 := (r6.dropWhile hexDigit).dropWhile isWsChar
    let a5 := r8.takeWhile hexDigit
    match r8.dropWhile hexDigit with
    | ':' :: r10 =>
      let a6 := r10.takeWhile hexDigit
      let r12 := (r10.dropWhile hexDigit).dropWhile isWsChar
      let a7 := r12.takeWhile hexDigit
      let rest := (r12.dropWhile hexDigit).dropWhile isWsChar
      some ⟨a1, a2, perms, a4, a5, a6, a7, rest⟩
    | _ => none
  | _ => none

/-- The detail-line branch of the read loop: find the first `:`; without one
the line is ignored; with one, `name = line.substr(0, i)` and
`value = line.substr(line.find_first_not_of(" ", i + 1))` — when every
character after the colon is a space, `find_first_not_of` returns `npos`
and `substr(npos)` throws `std::out_of_range`. -/
def handleDetailLine (line : List Char) (tags : List (String × String)) :
    Except String (List (String × String)) :=
  match line.findIdx? (fun c => c == ':') with
  | none => .ok tags
  | some splitIndex =>
    match ((line.drop (splitIndex + 1)).findIdx? (fun c => c != ' ')) with
    | none => .error "out_of_range"
    | some j =>
      .ok (tagsInsert tags (String.mk (line.take splitIndex))
            (String.mk (line.drop (splitIndex + 1 + j))))

/-- The mutable state of the read loop in `Map`. -/
structure MapState where
  firstLine : Bool
  current : LinuxEntry
  entries : List LinuxEntry
deriving Repr, DecidableEq

/-- Initial loop state: `firstLine = true`, default-constructed accumulator,
no emitted records. -/
def initState : MapState :=
  { firstLine := true, current := {}, entries := [] }

/-- One iteration of the read loop of `Map` on one input line.  A header
line first emits the open accumulator (unless this is the first header),
then overwrites the scalar fields of the accumulator — the attribute map is
never cleared.  Emission records the raw accumulator; its conversion by
`LinuxToVmmap` is performed by `convertAll` below. -/
def processLine (st : MapState) (line : String) : Except String MapState :=
  match matchHeader line with
  | some cap => do
    let emitted := if st.firstLine then st.entries else st.entries ++ [st.current]
    let start ← stoullHex cap.a1
    let stop ← stoullHex cap.a2
    let offset ← stoullHex cap.a4
    .ok
      { firstLine := false
        current :=
          { st.current with
            start := toIntptr start
            endA := toIntptr stop
            permissions := String.mk cap.perms
            offset := toIntptr offset
            dev := String.mk cap.a5 ++ ":" ++ String.mk cap.a6
            inode := String.mk cap.a7
            description := String.mk cap.rest }
        entries := emitted }
  | none =>
    match handleDetailLine line.data st.current.tags with
    | .ok tags => .ok { st with current := { st.current with tags := tags } }
    | .error e => .error e

/-- The read loop of `Map` over the whole line sequence. -/
def parseLoop (st : MapState) : List String → Except String MapState
  | [] => .ok st
  | l :: ls =>
    match processLine st l with
    | .ok st' => parseLoop st' ls
    | .error e => .error e

/-- The raw records emitted by the read loop of `Map`, in order.  The final
open accumulator is never emitted: the C++ loop has no `push_back` after it. -/
def parseLines (lines : List String) : Except String (List LinuxEntry) :=
  (parseLoop initState lines).map (fun st => st.entries)

/-- Number of lines matching the header regex. -/
def countHeaders (lines : List String) : Nat :=
  (lines.filter (fun l => (matchHeader l).isSome)).length

/-- Convert every emitted raw record with `LinuxToVmmap`, propagating the
first failure (in the source the conversion is interleaved with parsing;
only the identity of the reported error can differ, not success/failure). -/
def convertAll (hostPageSize : Nat) : List LinuxEntry → Except String (List VmmapEntry)
  | [] => .ok []
  | r :: rs => do
    let v ← LinuxToVmmap hostPageSize r
    let vs ← convertAll hostPageSize rs
    .ok (v :: vs)

/-- The fixed root-translation path prepended to mapped-file details
(`SystemPrefix` in the source). -/
def systemRootPath : String := "/Volumes/SystemRoot"

/-- `entry.prt[EXECUTE_INDEX] == 'x'`.  For `prt` of length 2 the C++ index
reads the terminating null (not `'x'`); length ≤ 1 would be undefined
behaviour, modelled by the same non-`'x'` default. -/
def execBit (e : VmmapEntry) : Bool :=
  e.prt.data.getD EXECUTE_INDEX '\x00' == 'x'

/-- First reclassification loop of `Map`: prefix every mapped-file detail
with the root-translation path (done for every mapped-file entry, before
the executable set is consulted). -/
def prefixPass (e : VmmapEntry) : VmmapEntry :=
  if e.regionType == "mapped file" then
    { e with regionDetail := systemRootPath ++ e.regionDetail }
  else e

/-- The `executeableFiles` set after the first loop: details (already
prefixed) of mapped-file entries whose own execute bit is set. -/
def execFiles (l : List VmmapEntry) : List String :=
  (l.filter (fun e => e.regionType == "mapped file" && execBit e)).map
    (fun e => e.regionDetail)

/-- Second reclassification loop of `Map`: relabel mapped-file entries whose
(prefixed) backing path was observed executable. -/
def relabelPass (files : List String) (e : VmmapEntry) : VmmapEntry :=
  if e.regionType == "mapped file" && files.contains e.regionDetail then
    if execBit e then { e with regionType := "__TEXT" }
    else { e with regionType := "__DATA" }
  else e

/-- The whole two-pass reclassification of `Map` (lines 151–181). -/
def secondPass (l : List VmmapEntry) : List VmmapEntry :=
  let l1 := l.map prefixPass
  l1.map (relabelPass (execFiles l1))

/-- The pure core of `Map`: parse the lines, convert every emitted record,
run the two-pass reclassification.  `hostPageSize` stands for
`sysconf(_SC_PAGESIZE)`. -/
def runMap (hostPageSize : Nat) (lines : List String) :
    Except String (List VmmapEntry) := do
  let raws ← parseLines lines
  let vs ← convertAll hostPageSize raws
  .ok (secondPass vs)

/-- Errno outcome of `getpgid(pid)` as observed by `Map`. -/
inductive PgidErrno where
  | noErr : PgidErrno
  | esrch : PgidErrno
  | einval : PgidErrno
  | eperm : PgidErrno
deriving Repr, DecidableEq

/-- `BadPid` (reader, line 191): despite its name it reports the
*insufficient privileges* message. -/
def BadPid (pid : Int) : Except String Unit :=
  .error ("vmmap: vmmap cannot examine process " ++ toString pid ++
    " because you do not have appropriate privileges to examine it; try running with `sudo`.")

/-- `BadPerm` (reader, line 186): despite its name it reports the
*no longer appears to be running* message. -/
def BadPerm (pid : Int) : Except String Unit :=
  .error ("vmmap: vmmap cannot examine process " ++ toString pid ++
    " because it no longer appears to be running.")

/-- The target checks at the head of `Map` (lines 69–101): dispatch on the
`getpgid` errno, then on whether `smaps` or the fallback `maps` could be
opened. -/
def checkTarget (pid : Int) (err : PgidErrno) (smapsOpen mapsOpen : Bool) :
    Except String Unit :=
  if err = .esrch ∨ err = .einval then BadPid pid
  else if err = .eperm then BadPerm pid
  else if !smapsOpen && !mapsOpen then BadPid pid
  else .ok ()

/-- The accumulation body of the `PrintSummary` bucket loop for one entry
(all `+=` in `size_t`, i.e. modulo `2 ^ 64`). -/
def summaryAccum (cur : VmmapSummaryEntry) (e : VmmapEntry) :
    VmmapSummaryEntry :=
  { regionType := e.regionType
    vsize := addU64 cur.vsize e.vsize
    rss := addU64 cur.rss e.rss
    dirty := addU64 cur.dirty e.dirty
    swap := addU64 cur.swap e.swap
    vol := if e.purge == "V" then addU64 cur.vol e.vsize else cur.vol
    nonvol := if e.purge == "N" then addU64 cur.nonvol e.vsize else cur.nonvol
    empty := if e.purge == "E" then addU64 cur.empty e.vsize else cur.empty
    regionCount := addU64 cur.regionCount 1 }

/-- One step of the `PrintSummary` loop: `regions[entry.regionType]` is the
bucket for the entry's key, default-constructed when absent; the map is
modelled as a total function from keys to buckets, absent keys giving the
default bucket. -/
def summaryStep (regions : String → VmmapSummaryEntry) (e : VmmapEntry) :
    String → VmmapSummaryEntry :=
  fun k => if e.regionType == k then summaryAccum (regions k) e else regions k

/-- The bucket map built by the `PrintSummary` loop (print.cpp 495–521).
The keys present in the C++ `unordered_map` are exactly the region types
occurring in `entries`; for all other keys this function returns the
default bucket. -/
def summaryBuckets (entries : List VmmapEntry) : String → VmmapSummaryEntry :=
  entries.foldl summaryStep (fun _ => {})

/-- The accumulation body of the `PrintMalloc` zone loop for one entry
(no purge sub-totals are accumulated there). -/
def mallocAccum (cur : VmmapSummaryEntry) (e : VmmapEntry) :
    VmmapSummaryEntry :=
  { cur with
    regionType := e.regionDetail
    vsize := addU64 cur.vsize e.vsize
    rss := addU64 cur.rss e.rss
    dirty := addU64 cur.dirty e.dirty
    swap := addU64 cur.swap e.swap
    regionCount := addU64 cur.regionCount 1 }

/-- One step of the `PrintMalloc` loop: only entries whose `regionType`
starts with `MALLOC` contribute, keyed by `regionDetail`. -/
def mallocStep (zones : String → VmmapSummaryEntry) (e : VmmapEntry) :
    String → VmmapSummaryEntry :=
  if IsMalloc e then
    fun k => if e.regionDetail == k then mallocAccum (zones k) e else zones k
  else zones

/-- The zone bucket map built by the `PrintMalloc` loop (print.cpp 607–622). -/
def mallocBuckets (entries : List VmmapEntry) : String → VmmapSummaryEntry :=
  entries.foldl mallocStep (fun _ => {})

/-- The value-relevant result of `PrintSummary`: the bucket map together
with `entries.front().pageSize` (print.cpp 523), which unconditionally
dereferences the first entry — undefined for an empty entry list, hence
`none` there. -/
def PrintSummaryData (entries : List VmmapEntry) :
    Option ((String → VmmapSummaryEntry) × Nat) :=
  match entries with
  | [] => none
  | e :: _ => some (summaryBuckets entries, e.pageSize)

/-- The value-relevant result of `PrintMalloc`: the zone map together with
`entries.front().pageSize` (print.cpp 624), undefined for an empty list. -/
def PrintMallocData (entries : List VmmapEntry) :
    Option ((String → VmmapSummaryEntry) × Nat) :=
  match entries with
  | [] => none
  | e :: _ => some (mallocBuckets entries, e.pageSize)

/-- `entries.begin()->pageSize` read by `Print` (print.cpp 92) when the
per-region report is shown, undefined for an empty list. -/
def PrintPageSize (entries : List VmmapEntry) : Option Nat :=
  entries.head?.map (fun e => e.pageSize)

/-- The value-relevant result of `Print`: it always invokes `PrintSummary`
(which in turn invokes `PrintMalloc`), and when `summaryOnly` is false it
additionally reads the first entry's page size itself. -/
def PrintData (summaryOnly : Bool) (entries : List VmmapEntry) :
    Option ((String → VmmapSummaryEntry) × Nat) :=
  if summaryOnly then PrintSummaryData entries
  else
    match PrintPageSize entries with
    | none => none
    | some _ => PrintSummaryData entries

/-- Boolean check that a record's `KernelPageSize` attribute, when present,
parses to the given page size (used as a decidable validity hypothesis). -/
def kernelPageOk (hostPageSize : Nat) (r : LinuxEntry) : Bool :=
  match tagsLookup r.tags "KernelPageSize" with
  | some v =>
    match ParseSize v with
    | .ok n => n == hostPageSize
    | .error _ => false
  | none => true

/-- Sample header line taken from the spec's scenario. -/
def scenarioHeader : String :=
  "00400000-00401000 r-xp 00000000 08:01 12345 /bin/true"

/-- A second header line, to make the first record actually be emitted. -/
def scenarioHeader2 : String :=
  "00401000-00402000 rw-p 00000000 08:01 12345 /bin/true"

/-- An entry whose virtual size is half of `2 ^ 64`, so that two of them
overflow the `size_t` accumulation. -/
def wrapEntry : VmmapEntry :=
  { regionType := "VM_ALLOCATE", vsize := 2 ^ 63 }

/-- An input whose emitted entries violate `start < end`, `pageSize > 0`
and the constancy of `pageSize` (nothing in the code validates them). -/
def uncheckedLines : List String :=
  ["0-0 r-xp 0 0:0 0", "KernelPageSize: 0 kB",
   "0-1000 r-xp 0 0:0 0", "KernelPageSize: 8 kB",
   "1000-2000 r-xp 0 0:0 0"]

/-- A well-formed input: all headers have `start < end` and the only
`KernelPageSize` attribute equals the host page size. -/
def validLines : List String :=
  ["0-1000 r-xp 0 0:0 0 /bin/a", "KernelPageSize: 4 kB",
   "1000-2000 rw-p 0 0:0 0", "2000-3000 rw-p 0 0:0 0"]

/-- An input with a colon-delimited detail line before any header line. -/
def preheaderLines : List String :=
  ["Size: 4 kB", "0-1000 r-xp 0 0:0 0", "1000-2000 r-xp 0 0:0 0"]

/-- A MALLOC-zone entry of the spec's aggregation scenario (size 100). -/
def zoneEntry1 : VmmapEntry :=
  { regionType := "MALLOC", regionDetail := "DefaultMallocZone", vsize := 100 }

/-- A MALLOC-zone entry of the spec's aggregation scenario (size 200). -/
def zoneEntry2 : VmmapEntry :=
  { regionType := "MALLOC", regionDetail := "DefaultMallocZone", vsize := 200 }

/-- An executable mapped-file entry for the two-pass scenario. -/
def textEntry : VmmapEntry :=
  { regionType := "mapped file", regionDetail := "/lib/a", prt := "r-x" }

/-- A non-executable mapped-file entry of the same backing path. -/
def dataEntry : VmmapEntry :=
  { regionType := "mapped file", regionDetail := "/lib/a", prt := "r--" }

/-- C1: the claim states one emitted record per header line, the final open
accumulator being emitted at end of input.  The code never emits the final
accumulator: a one-header input yields zero records and a two-header input
yields one, in both cases one fewer than the number of header lines. -/
theorem map_drops_final_record :
    runMap 4096 [scenarioHeader] = .ok [] ∧
    countHeaders [scenarioHeader] = 1 ∧
    ((runMap 4096 [scenarioHeader, scenarioHeader2]).toOption.getD []).length = 1 ∧
    countHeaders [scenarioHeader, scenarioHeader2] = 2 :=
  ⟨rfl, rfl, by decide, rfl⟩

/-- C4: the code's error kinds are assigned opposite to the host's reported
cause: a nonexistent target (`ESRCH`) and the unreadable-sources case both
produce the *insufficient privilege* message, while a permissions cause
(`EPERM`) produces the *no longer appears to be running* message. -/
theorem target_error_messages_swapped :
    checkTarget 42 .esrch true true =
      .error ("vmmap: vmmap cannot examine process 42 because you do not " ++
        "have appropriate privileges to examine it; try running with `sudo`.") ∧
    checkTarget 42 .noErr false false =
      .error ("vmmap: vmmap cannot examine process 42 because you do not " ++
        "have appropriate privileges to examine it; try running with `sudo`.") ∧
    checkTarget 42 .eperm true true =
      .error ("vmmap: vmmap cannot examine process 42 because it no longer " ++
        "appears to be running.") :=
  ⟨rfl, rfl, rfl⟩

/-- C2 counterexample: the bucket accumulation is `size_t` arithmetic, so a
bucket's `virtualSize` is not the mathematical sum of the matching entries'
sizes once that sum reaches `2 ^ 64`: two entries of size `2 ^ 63` yield a
bucket of `virtualSize` 0. -/
theorem summary_bucket_totals_cex :
    (summaryBuckets [wrapEntry, wrapEntry] "VM_ALLOCATE").vsize = 0 ∧
    ((([wrapEntry, wrapEntry].filter
        (fun e => e.regionType == "VM_ALLOCATE")).map (fun e => e.vsize)).sum
      = 2 ^ 64) ∧
    (2 ^ 64 : Nat) ≠ 0 :=
  ⟨rfl, rfl, by decide⟩

/-- C5 counterexample: the products are computed in `size_t`, so
`'<n> kB'` with `n = 2 ^ 54` parses to `0`, not to `n * 1024 = 2 ^ 64`. -/
theorem parse_size_unit_semantics_cex :
    ParseSize "18014398509481984 kB" = .ok 0 ∧
    (18014398509481984 : Nat) * 1024 = 2 ^ 64 ∧
    (2 ^ 64 : Nat) ≠ 0 :=
  ⟨rfl, by decide, by decide⟩

/-- C6 counterexample: nothing validates the emitted entries — this input
produces a first entry with `startAddress = endAddress` and `pageSize = 0`,
and a second entry with a different `pageSize`. -/
theorem entry_address_pagesize_invariants_cex :
    ((runMap 4096 uncheckedLines).toOption.getD []).map
      (fun e => (e.startAddress, e.endAddress, e.pageSize)) =
      [(0, 0, 0), (0, 4096, 8192)] :=
  by decide

/-- C7 counterexample: a colon-delimited detail line before any header line
is not ignored — its pair is stored in the accumulator and surfaces in the
first emitted record's attribute map. -/
theorem preheader_details_recorded_cex :
    (parseLines preheaderLines).map
      (fun rs => rs.map (fun r => tagsLookup r.tags "Size")) =
      .ok [some "4 kB"] :=
  rfl

/-- `findIdx?` (at any starting index) returns `none` exactly when no
element satisfies the predicate. -/
theorem findIdx_none_iff {α : Type} (p : α → Bool) (l : List α) (i : Nat) :
    List.findIdx? p l i = none ↔ ∀ a ∈ l, p a = false := by
  induction l generalizing i with
  | nil => simp [List.findIdx?]
  | cons a l ih =>
    cases h : p a with
    | true =>
      simp only [List.findIdx?, h, if_true]
      constructor
      · intro hc
        simp at hc
      · intro hall
        have hpa := hall a (List.mem_cons_self a l)
        rw [h] at hpa
        exact Bool.noConfusion hpa
    | false =>
      simp only [List.findIdx?, h, Bool.false_eq_true, if_false,
        List.mem_cons]
      rw [ih]
      constructor
      · rintro hall b (rfl | hb)
        · exact h
        · exact hall b hb
      · intro hall b hb
        exact hall b (Or.inr hb)

/-- C9: the overall print, the whole-process summary and the malloc-zone
summary each unconditionally read the first entry's `pageSize`, so they are
defined (safe) exactly for a non-empty entry list and have no defined
result on the empty one. -/
theorem report_requires_nonempty (entries : List VmmapEntry)
    (h : entries ≠ []) :
    (PrintPageSize entries).isSome = true ∧
    (PrintSummaryData entries).isSome = true ∧
    (PrintMallocData entries).isSome = true ∧
    (∀ summaryOnly, (PrintData summaryOnly entries).isSome = true) ∧
    PrintPageSize ([] : List VmmapEntry) = none ∧
    PrintSummaryData ([] : List VmmapEntry) = none ∧
    PrintMallocData ([] : List VmmapEntry) = none ∧
    (∀ summaryOnly, PrintData summaryOnly ([] : List VmmapEntry) = none) := by
  cases entries with
  | nil => exact absurd rfl h
  | cons e es =>
    refine ⟨rfl, rfl, rfl, ?_, rfl, rfl, rfl, ?_⟩
    · intro summaryOnly
      cases summaryOnly <;> rfl
    · intro summaryOnly
      cases summaryOnly <;> rfl

/-- C9 witness: the reporting operations are defined on a concrete
one-element entry list and undefined on the empty one. -/
theorem report_requires_nonempty_witness :
    (PrintPageSize [textEntry]).isSome = true ∧
    (PrintSummaryData [textEntry]).isSome = true ∧
    (PrintMallocData [textEntry]).isSome = true ∧
    (∀ summaryOnly, (PrintData summaryOnly [textEntry]).isSome = true) ∧
    PrintPageSize ([] : List VmmapEntry) = none ∧
    PrintSummaryData ([] : List VmmapEntry) = none ∧
    PrintMallocData ([] : List VmmapEntry) = none ∧
    (∀ summaryOnly, PrintData summaryOnly ([] : List VmmapEntry) = none) :=
  report_requires_nonempty [textEntry] (by simp)

/-- C10: the detail-line branch throws `std::out_of_range` on a non-header
line with a colon but only spaces after it (concretely `"Name:"`), and for
any line whose first colon is at index `i` it succeeds exactly when some
character after the colon differs from a space. -/
theorem detail_line_out_of_range :
    matchHeader "Name:" = none ∧
    handleDetailLine "Name:".data [] = .error "out_of_range" ∧
    ∀ (line : List Char) (tags : List (String × String)) (i : Nat),
      line.findIdx? (fun c => c == ':') = some i →
      ((handleDetailLine line tags).isOk = true ↔
        ∃ c ∈ line.drop (i + 1), c ≠ ' ') := by
  refine ⟨rfl, rfl, ?_⟩
  intro line tags i h
  have hrep : handleDetailLine line tags =
      match List.findIdx? (fun c => c != ' ') (line.drop (i + 1)) with
      | none => .error "out_of_range"
      | some j => .ok (tagsInsert tags (String.mk (line.take i))
            (String.mk (line.drop (i + 1 + j)))) := by
    unfold handleDetailLine
    rw [h]
  rw [hrep]
  rcases hf : List.findIdx? (fun c => c != ' ') (line.drop (i + 1)) with _ | j
  · constructor
    · intro hc
      exact Bool.noConfusion hc
    · rintro ⟨c, hc, hne⟩
      rw [findIdx_none_iff] at hf
      have h2 := hf c hc
      rw [Bool.eq_false_iff, ne_eq, bne_iff_ne] at h2
      exact (h2 hne).elim
  · constructor
    · intro _
      by_contra hno
      push_neg at hno
      have hnone : List.findIdx? (fun c => c != ' ')
          (line.drop (i + 1)) = none := by
        rw [findIdx_none_iff]
        intro a ha
        rw [hno a ha]
        decide
      rw [hnone] at hf
      exact Option.noConfusion hf
    · intro _
      rfl

/-- C10 witness: on the concrete line `"Name: x"` (first colon at index 4,
a non-space character after it) the detail-line branch succeeds. -/
theorem detail_line_out_of_range_witness :
    (handleDetailLine "Name: x".data []).isOk = true :=
  (detail_line_out_of_range.2.2 "Name: x".data [] 4 (by decide)).mpr
    ⟨'x', by decide, by decide⟩

/-- A digit character is none of the listed whitespace characters. -/
theorem digit_not_ws (c : Char) (h : c.isDigit = true) : isWsChar c = false := by
  cases hw : isWsChar c with
  | false => rfl
  | true =>
    unfold isWsChar at hw
    rw [show ([' ', '\t', '\n', '\x0b', '\x0c', '\r'].contains c)
      = ([' ', '\t', '\n', '\x0b', '\x0c', '\r'].elem c) from rfl,
      List.elem_iff] at hw
    simp only [List.mem_cons, List.not_mem_nil, or_false] at hw
    rcases hw with rfl | rfl | rfl | rfl | rfl | rfl <;>
      exact absurd h (by decide)

/-- A digit character differs from any non-digit character. -/
theorem digit_ne_of (c x : Char) (h : c.isDigit = true)
    (hx : x.isDigit = false) : c ≠ x := by
  intro e
  subst e
  rw [h] at hx
  exact Bool.noConfusion hx

/-- `signSplit` is the identity on a list starting with a digit. -/
theorem signSplit_digit (c : Char) (t : List Char) (h : c.isDigit = true) :
    signSplit (c :: t) = (false, c :: t) := by
  show (if c = '-' then (true, t)
    else if c = '+' then (false, t) else (false, c :: t)) = (false, c :: t)
  rw [if_neg (digit_ne_of c '-' h (by decide)),
    if_neg (digit_ne_of c '+' h (by decide))]

/-- `takeWhile` over an append whose left part satisfies the predicate. -/
theorem takeWhile_append_all {α : Type} (p : α → Bool) (l r : List α)
    (h : ∀ c ∈ l, p c = true) :
    (l ++ r).takeWhile p = l ++ r.takeWhile p := by
  induction l with
  | nil => rfl
  | cons x xs ih =>
    rw [List.cons_append, List.takeWhile_cons,
      h x (List.mem_cons_self x xs), if_pos rfl, List.cons_append,
      ih (fun y hy => h y (List.mem_cons_of_mem x hy))]

/-- `dropWhile` over an append whose left part satisfies the predicate. -/
theorem dropWhile_append_all {α : Type} (p : α → Bool) (l r : List α)
    (h : ∀ c ∈ l, p c = true) :
    (l ++ r).dropWhile p = r.dropWhile p := by
  induction l with
  | nil => rfl
  | cons x xs ih =>
    rw [List.cons_append, List.dropWhile_cons,
      h x (List.mem_cons_self x xs), if_pos rfl]
    exact ih (fun y hy => h y (List.mem_cons_of_mem x hy))

/-- `takeWhile` is the identity when every element satisfies the predicate. -/
theorem takeWhile_all {α : Type} (p : α → Bool) (l : List α)
    (h : ∀ c ∈ l, p c = true) : l.takeWhile p = l := by
  have := takeWhile_append_all p l [] h
  simpa using this

/-- `dropWhile` keeps a list whose head fails the predicate. -/
theorem dropWhile_cons_false {α : Type} (p : α → Bool) (a : α) (l : List α)
    (h : p a = false) : (a :: l).dropWhile p = a :: l := by
  simp [List.dropWhile_cons, h]

/-- `takeWhile` stops at a head failing the predicate. -/
theorem takeWhile_cons_false {α : Type} (p : α → Bool) (a : α) (l : List α)
    (h : p a = false) : (a :: l).takeWhile p = [] := by
  simp [List.takeWhile_cons, h]

/-- Numeric extraction on a digit run followed by a space: value and rest. -/
theorem extractULL_digits (ds u : List Char) (hne : ds ≠ [])
    (hdig : ∀ c ∈ ds, c.isDigit = true) (hlt : digitsToNat ds < U64) :
    extractULL (ds ++ ' ' :: u) = some (digitsToNat ds, ' ' :: u) := by
  obtain ⟨d, ds', rfl⟩ : ∃ d ds', ds = d :: ds' := by
    cases ds with
    | nil => exact absurd rfl hne
    | cons d ds' => exact ⟨d, ds', rfl⟩
  have hd : d.isDigit = true := hdig d (by simp)
  unfold extractULL
  rw [List.cons_append,
    dropWhile_cons_false isWsChar d (ds' ++ ' ' :: u) (digit_not_ws d hd),
    signSplit_digit d _ hd]
  simp only
  rw [← List.cons_append,
    takeWhile_append_all Char.isDigit (d :: ds') (' ' :: u) hdig,
    takeWhile_cons_false Char.isDigit ' ' u (by decide), List.append_nil,
    dropWhile_append_all Char.isDigit (d :: ds') (' ' :: u) hdig,
    dropWhile_cons_false Char.isDigit ' ' u (by decide)]
  rw [if_neg (by simp), if_pos hlt, if_neg (by decide)]

/-- Numeric extraction fails (`failbit`) on an out-of-range digit run. -/
theorem extractULL_overflow (ds u : List Char) (hne : ds ≠ [])
    (hdig : ∀ c ∈ ds, c.isDigit = true) (hge : U64 ≤ digitsToNat ds) :
    extractULL (ds ++ ' ' :: u) = none := by
  obtain ⟨d, ds', rfl⟩ : ∃ d ds', ds = d :: ds' := by
    cases ds with
    | nil => exact absurd rfl hne
    | cons d ds' => exact ⟨d, ds', rfl⟩
  have hd : d.isDigit = true := hdig d (by simp)
  unfold extractULL
  rw [List.cons_append,
    dropWhile_cons_false isWsChar d (ds' ++ ' ' :: u) (digit_not_ws d hd),
    signSplit_digit d _ hd]
  simp only
  rw [← List.cons_append,
    takeWhile_append_all Char.isDigit (d :: ds') (' ' :: u) hdig,
    takeWhile_cons_false Char.isDigit ' ' u (by decide), List.append_nil]
  rw [if_neg (by simp), if_neg (by omega)]

/-- Token extraction after a single space reads a whitespace-free token. -/
theorem extractToken_nows (u : List Char) (h : ∀ c ∈ u, isWsChar c = false) :
    (extractToken (' ' :: u)).1 = u := by
  unfold extractToken
  simp only [List.dropWhile_cons]
  rw [if_pos (by decide)]
  have hu : u.dropWhile isWsChar = u := by
    cases u with
    | nil => rfl
    | cons a t => exact dropWhile_cons_false isWsChar a t (h a (by simp))
  rw [hu]
  exact takeWhile_all _ u (fun c hc => by rw [h c hc]; rfl)

/-- C5 (amended): for a digit string `n` whose value fits `size_t`, the
size parser maps `'<n> kB'`/`'<n> MB'`/`'<n> GB'` to the product with
1024 / 2^20 / 2^30 computed in `size_t` (modulo `2 ^ 64`, hence exact
whenever the product fits), and for any other whitespace-free unit token it
fails; when the numeric value itself exceeds `size_t`, extraction fails and
the parser reports the malformed-size error even for a recognized unit.
The spec's concrete scenarios hold exactly. -/
theorem parse_size_unit_semantics (ds : List Char) (hne : ds ≠ [])
    (hdig : ∀ c ∈ ds, c.isDigit = true) :
    (digitsToNat ds < U64 →
      ParseSize (String.mk (ds ++ ' ' :: "kB".data)) =
        .ok (digitsToNat ds * 1024 % U64) ∧
      ParseSize (String.mk (ds ++ ' ' :: "MB".data)) =
        .ok (digitsToNat ds * 1024 * 1024 % U64) ∧
      ParseSize (String.mk (ds ++ ' ' :: "GB".data)) =
        .ok (digitsToNat ds * 1024 * 1024 * 1024 % U64) ∧
      ∀ u : List Char, u ≠ [] → (∀ c ∈ u, isWsChar c = false) →
        ((ParseSize (String.mk (ds ++ ' ' :: u))).isOk = true ↔
          (u = "kB".data ∨ u = "MB".data ∨ u = "GB".data))) ∧
    (U64 ≤ digitsToNat ds →
      (ParseSize (String.mk (ds ++ ' ' :: "kB".data))).isOk = false) ∧
    ParseSize "4 kB" = .ok 4096 ∧
    ParseSize "1 MB" = .ok 1048576 ∧
    (ParseSize "4 xB").isOk = false := by
  have hform : ∀ u : List Char, digitsToNat ds < U64 →
      (∀ c ∈ u, isWsChar c = false) →
      ParseSize (String.mk (ds ++ ' ' :: u)) =
        (if u = "kB".data then .ok (digitsToNat ds * 1024 % U64)
         else if u = "MB".data then .ok (digitsToNat ds * 1024 * 1024 % U64)
         else if u = "GB".data then
           .ok (digitsToNat ds * 1024 * 1024 * 1024 % U64)
         else .error ("vmmap: Failed to parse size: " ++
           String.mk (ds ++ ' ' :: u))) := by
    intro u hlt hnows
    unfold ParseSize
    rw [show (String.mk (ds ++ ' ' :: u)).data = ds ++ ' ' :: u from rfl,
      extractULL_digits ds u hne hdig hlt]
    simp only
    rw [extractToken_nows u hnows]
  refine ⟨?_, ?_, rfl, rfl, rfl⟩
  · intro hlt
    refine ⟨?_, ?_, ?_, ?_⟩
    · rw [hform "kB".data hlt (by decide), if_pos rfl]
    · rw [hform "MB".data hlt (by decide), if_neg (by decide), if_pos rfl]
    · rw [hform "GB".data hlt (by decide), if_neg (by decide),
        if_neg (by decide), if_pos rfl]
    · intro u hu hnows
      rw [hform u hlt hnows]
      by_cases h1 : u = "kB".data
      · simp [h1, Except.isOk, Except.toBool]
      · by_cases h2 : u = "MB".data
        · simp [h1, h2, Except.isOk, Except.toBool]
        · by_cases h3 : u = "GB".data
          · simp [h1, h2, h3, Except.isOk, Except.toBool]
          · simp [h1, h2, h3, Except.isOk, Except.toBool]
  · intro hge
    unfold ParseSize
    rw [show (String.mk (ds ++ ' ' :: "kB".data)).data =
      ds ++ ' ' :: "kB".data from rfl,
      extractULL_overflow ds "kB".data hne hdig hge]
    rfl

/-- C5 witness: the amended theorem applied to the digit string `12` gives
`ParseSize "12 kB" = 12288` and rejects the unit `qB`. -/
theorem parse_size_unit_semantics_witness :
    ParseSize (String.mk ("12".data ++ ' ' :: "kB".data)) =
      .ok (digitsToNat "12".data * 1024 % U64) ∧
    digitsToNat "12".data * 1024 % U64 = 12288 ∧
    ((ParseSize (String.mk ("12".data ++ ' ' :: "qB".data))).isOk = true ↔
      ("qB".data = "kB".data ∨ "qB".data = "MB".data ∨
        "qB".data = "GB".data)) :=
  ⟨((parse_size_unit_semantics "12".data (by decide) (by decide)).1
      (by decide)).1,
   by decide,
   ((parse_size_unit_semantics "12".data (by decide) (by decide)).1
      (by decide)).2.2.2 "qB".data (by decide) (by decide)⟩

/-- `prefixPass` on a mapped-file entry only rewrites the detail. -/
theorem prefixPass_mapped (e : VmmapEntry) (h : e.regionType = "mapped file") :
    prefixPass e = { e with regionDetail := systemRootPath ++ e.regionDetail } := by
  simp [prefixPass, h]

/-- `prefixPass` leaves non-mapped-file entries unchanged. -/
theorem prefixPass_other (e : VmmapEntry) (h : ¬ e.regionType = "mapped file") :
    prefixPass e = e := by
  simp [prefixPass, h]

/-- `prefixPass` preserves the execute bit (it never touches `prt`). -/
theorem execBit_prefixPass (e : VmmapEntry) :
    execBit (prefixPass e) = execBit e := by
  unfold prefixPass
  split <;> rfl

/-- `prefixPass` preserves the region type. -/
theorem regionType_prefixPass (e : VmmapEntry) :
    (prefixPass e).regionType = e.regionType := by
  unfold prefixPass
  split <;> rfl

/-- Appending to the fixed prefix is injective on the appended part. -/
theorem append_detail_cancel (a b : String)
    (h : systemRootPath ++ a = systemRootPath ++ b) : a = b := by
  have hd := congrArg String.data h
  rw [String.data_append, String.data_append] at hd
  exact String.ext (List.append_cancel_left hd)

/-- The executable-path set collected by the first pass contains the
prefixed path of `d` exactly when some mapped-file entry of the original
list has backing path `d` and its execute bit set. -/
theorem execFiles_mem (l : List VmmapEntry) (d : String) :
    ((execFiles (l.map prefixPass)).contains (systemRootPath ++ d) = true) ↔
      ∃ f ∈ l, f.regionType = "mapped file" ∧ execBit f = true ∧
        f.regionDetail = d := by
  rw [show (execFiles (l.map prefixPass)).contains (systemRootPath ++ d) =
    (execFiles (l.map prefixPass)).elem (systemRootPath ++ d) from rfl,
    List.elem_iff]
  unfold execFiles
  simp only [List.mem_map, List.mem_filter, Bool.and_eq_true, beq_iff_eq]
  constructor
  · rintro ⟨x, ⟨⟨f, hf, rfl⟩, hq1, hq2⟩, hdet⟩
    rw [regionType_prefixPass] at hq1
    rw [execBit_prefixPass] at hq2
    rw [prefixPass_mapped f hq1] at hdet
    refine ⟨f, hf, hq1, hq2, ?_⟩
    exact (append_detail_cancel _ _ hdet.symm).symm
  · rintro ⟨f, hf, hm, hx, rfl⟩
    refine ⟨prefixPass f, ⟨⟨f, hf, rfl⟩, ?_, ?_⟩, ?_⟩
    · rw [regionType_prefixPass]; exact hm
    · rw [execBit_prefixPass]; exact hx
    · rw [prefixPass_mapped f hm]

/-- C3: after the second pass, every mapped-file entry whose (own) backing
path was observed with an executable mapping is relabeled `__TEXT` when its
own execute bit is set and `__DATA` otherwise; mapped-file entries of a
never-executable path keep the `mapped file` label (with the root prefix
added to the detail); non-mapped-file entries are untouched. -/
theorem second_pass_text_data (l : List VmmapEntry) (i : Nat) (e : VmmapEntry)
    (hi : l[i]? = some e) :
    ∃ e', (secondPass l)[i]? = some e' ∧
      (e.regionType = "mapped file" →
        e'.regionDetail = systemRootPath ++ e.regionDetail ∧
        ((∃ f ∈ l, f.regionType = "mapped file" ∧ execBit f = true ∧
            f.regionDetail = e.regionDetail) →
          e'.regionType = (if execBit e = true then "__TEXT" else "__DATA")) ∧
        ((¬ ∃ f ∈ l, f.regionType = "mapped file" ∧ execBit f = true ∧
            f.regionDetail = e.regionDetail) →
          e'.regionType = "mapped file")) ∧
      (¬ e.regionType = "mapped file" → e' = e) := by
  refine ⟨relabelPass (execFiles (l.map prefixPass)) (prefixPass e), ?_, ?_, ?_⟩
  · unfold secondPass
    simp only [List.getElem?_map, hi]
    rfl
  · intro hm
    rw [prefixPass_mapped e hm]
    unfold relabelPass
    by_cases hex : ∃ f ∈ l, f.regionType = "mapped file" ∧ execBit f = true ∧
        f.regionDetail = e.regionDetail
    · rw [if_pos ?side]
      case side =>
        rw [Bool.and_eq_true, beq_iff_eq]
        exact ⟨hm, (execFiles_mem l e.regionDetail).mpr hex⟩
      refine ⟨?_, fun _ => ?_, fun hno => absurd hex hno⟩
      · split <;> rfl
      · have hb : execBit { e with
            regionDetail := systemRootPath ++ e.regionDetail } = execBit e := rfl
        rw [hb]
        cases hbe : execBit e <;> simp [hbe]
    · rw [if_neg ?side2]
      case side2 =>
        rw [Bool.and_eq_true, beq_iff_eq]
        rintro ⟨-, hc⟩
        exact hex ((execFiles_mem l e.regionDetail).mp hc)
      exact ⟨rfl, fun hx => absurd hx hex, fun _ => hm⟩
  · intro hm
    rw [prefixPass_other e hm]
    unfold relabelPass
    rw [if_neg ?side3]
    case side3 =>
      rw [Bool.and_eq_true, beq_iff_eq]
      rintro ⟨hc, -⟩
      exact hm hc

/-- C3 witness: on a concrete two-entry list sharing the backing path
`/lib/a`, the executable entry is relabeled `__TEXT` and the
non-executable one `__DATA`. -/
theorem second_pass_text_data_witness :
    (∃ e', (secondPass [textEntry, dataEntry])[0]? = some e' ∧
      e'.regionType = "__TEXT") ∧
    (∃ e', (secondPass [textEntry, dataEntry])[1]? = some e' ∧
      e'.regionType = "__DATA") := by
  constructor
  · obtain ⟨e', h1, h2, -⟩ :=
      second_pass_text_data [textEntry, dataEntry] 0 textEntry (by decide)
    obtain ⟨-, h3, -⟩ := h2 (by decide)
    refine ⟨e', h1, ?_⟩
    rw [h3 ⟨textEntry, by simp, by decide, by decide, rfl⟩]
    decide
  · obtain ⟨e', h1, h2, -⟩ :=
      second_pass_text_data [textEntry, dataEntry] 1 dataEntry (by decide)
    obtain ⟨-, h3, -⟩ := h2 (by decide)
    refine ⟨e', h1, ?_⟩
    rw [h3 ⟨textEntry, by simp, by decide, by decide, rfl⟩]
    decide

/-- Sum of the constant-1 image is the length. -/
theorem sum_map_one {α : Type} (l : List α) :
    (l.map (fun _ => (1 : Nat))).sum = l.length := by
  induction l with
  | nil => rfl
  | cons a l ih => simp [ih, Nat.add_comm]

/-- A keyed bucket fold, read at one key, is the plain fold over the
entries matching that key. -/
theorem foldl_key_filter
    (stepA : VmmapSummaryEntry → VmmapEntry → VmmapSummaryEntry)
    (keyCond : VmmapEntry → String → Bool)
    (stepM : (String → VmmapSummaryEntry) → VmmapEntry →
      (String → VmmapSummaryEntry))
    (hstep : ∀ m e k, stepM m e k = if keyCond e k then stepA (m k) e else m k)
    (l : List VmmapEntry) (m0 : String → VmmapSummaryEntry) (k : String) :
    (l.foldl stepM m0) k = (l.filter (fun e => keyCond e k)).foldl stepA (m0 k) := by
  induction l generalizing m0 with
  | nil => rfl
  | cons e l ih =>
    rw [List.foldl_cons, ih, hstep, List.filter_cons]
    by_cases hc : keyCond e k = true
    · rw [if_pos hc, if_pos hc, List.foldl_cons]
    · rw [if_neg hc, if_neg hc]

/-- A numeric field accumulated modulo `2 ^ 64` (guarded by a condition)
over a fold equals the modular sum over the matching entries. -/
theorem foldl_mod_accum
    (stepA : VmmapSummaryEntry → VmmapEntry → VmmapSummaryEntry)
    (f : VmmapSummaryEntry → Nat) (g : VmmapEntry → Nat)
    (cond : VmmapEntry → Bool)
    (hstep : ∀ b e, f (stepA b e) =
      if cond e then (f b + g e) % U64 else f b)
    (fl : List VmmapEntry) (b : VmmapSummaryEntry) (hb : f b < U64) :
    f (fl.foldl stepA b) = (f b + ((fl.filter cond).map g).sum) % U64 := by
  induction fl generalizing b with
  | nil => simp [Nat.mod_eq_of_lt hb]
  | cons e fl ih =>
    rw [List.foldl_cons, List.filter_cons]
    by_cases hc : cond e = true
    · have hlt : f (stepA b e) < U64 := by
        rw [hstep b e, if_pos hc]
        exact Nat.mod_lt _ (by decide)
      rw [if_pos hc, ih _ hlt, hstep b e, if_pos hc, List.map_cons,
        List.sum_cons, Nat.mod_add_mod, Nat.add_assoc]
    · rw [if_neg hc, ih _ (by rw [hstep b e, if_neg hc]; exact hb),
        hstep b e, if_neg hc]

/-- Pointwise form of the `PrintMalloc` loop step. -/
theorem mallocStep_apply (m : String → VmmapSummaryEntry) (e : VmmapEntry)
    (k : String) :
    mallocStep m e k =
      if IsMalloc e && e.regionDetail == k then mallocAccum (m k) e
      else m k := by
  unfold mallocStep
  by_cases hm : IsMalloc e = true
  · rw [if_pos hm]
    by_cases hd : (e.regionDetail == k) = true
    · rw [if_pos hd, if_pos (by rw [hm, hd]; rfl)]
    · rw [if_neg hd, if_neg (by rw [hm]; simpa using hd)]
  · rw [Bool.not_eq_true] at hm
    simp [hm]

/-- Field totals of a `PrintSummary` bucket: modular sums over the entries
whose `regionType` is the bucket key. -/
theorem summaryBuckets_fields (l : List VmmapEntry) (k : String) :
    (summaryBuckets l k).vsize =
      ((l.filter (fun e => e.regionType == k)).map (fun e => e.vsize)).sum % U64 ∧
    (summaryBuckets l k).rss =
      ((l.filter (fun e => e.regionType == k)).map (fun e => e.rss)).sum % U64 ∧
    (summaryBuckets l k).dirty =
      ((l.filter (fun e => e.regionType == k)).map (fun e => e.dirty)).sum % U64 ∧
    (summaryBuckets l k).swap =
      ((l.filter (fun e => e.regionType == k)).map (fun e => e.swap)).sum % U64 ∧
    (summaryBuckets l k).regionCount =
      (l.filter (fun e => e.regionType == k)).length % U64 ∧
    (summaryBuckets l k).vol =
      (((l.filter (fun e => e.regionType == k)).filter
        (fun e => e.purge == "V")).map (fun e => e.vsize)).sum % U64 ∧
    (summaryBuckets l k).nonvol =
      (((l.filter (fun e => e.regionType == k)).filter
        (fun e => e.purge == "N")).map (fun e => e.vsize)).sum % U64 ∧
    (summaryBuckets l k).empty =
      (((l.filter (fun e => e.regionType == k)).filter
        (fun e => e.purge == "E")).map (fun e => e.vsize)).sum % U64 := by
  have hkey := foldl_key_filter summaryAccum
    (fun e k => e.regionType == k) summaryStep (fun _ _ _ => rfl) l
    (fun _ => {}) k
  have hvsize := foldl_mod_accum summaryAccum
    (fun b => b.vsize) (fun e => e.vsize) (fun _ => true)
    (fun b e => by simp [summaryAccum, addU64])
    (l.filter (fun e => e.regionType == k)) {} (by decide)
  have hrss := foldl_mod_accum summaryAccum
    (fun b => b.rss) (fun e => e.rss) (fun _ => true)
    (fun b e => by simp [summaryAccum, addU64])
    (l.filter (fun e => e.regionType == k)) {} (by decide)
  have hdirty := foldl_mod_accum summaryAccum
    (fun b => b.dirty) (fun e => e.dirty) (fun _ => true)
    (fun b e => by simp [summaryAccum, addU64])
    (l.filter (fun e => e.regionType == k)) {} (by decide)
  have hswap := foldl_mod_accum summaryAccum
    (fun b => b.swap) (fun e => e.swap) (fun _ => true)
    (fun b e => by simp [summaryAccum, addU64])
    (l.filter (fun e => e.regionType == k)) {} (by decide)
  have hcount := foldl_mod_accum summaryAccum
    (fun b => b.regionCount) (fun _ => 1) (fun _ => true)
    (fun b e => by simp [summaryAccum, addU64])
    (l.filter (fun e => e.regionType == k)) {} (by decide)
  have hvol := foldl_mod_accum summaryAccum
    (fun b => b.vol) (fun e => e.vsize) (fun e => e.purge == "V")
    (fun b e => by
      by_cases hv : (e.purge == "V") = true <;>
        simp [summaryAccum, addU64, hv])
    (l.filter (fun e => e.regionType == k)) {} (by decide)
  have hnonvol := foldl_mod_accum summaryAccum
    (fun b => b.nonvol) (fun e => e.vsize) (fun e => e.purge == "N")
    (fun b e => by
      by_cases hv : (e.purge == "N") = true <;>
        simp [summaryAccum, addU64, hv])
    (l.filter (fun e => e.regionType == k)) {} (by decide)
  have hempty := foldl_mod_accum summaryAccum
    (fun b => b.empty) (fun e => e.vsize) (fun e => e.purge == "E")
    (fun b e => by
      by_cases hv : (e.purge == "E") = true <;>
        simp [summaryAccum, addU64, hv])
    (l.filter (fun e => e.regionType == k)) {} (by decide)
  unfold summaryBuckets
  rw [hkey]
  simp only [List.filter_true] at hvsize hrss hdirty hswap hcount hvol hnonvol hempty
  refine ⟨?_, ?_, ?_, ?_, ?_, ?_, ?_, ?_⟩
  · rw [hvsize, Nat.zero_add]
  · rw [hrss, Nat.zero_add]
  · rw [hdirty, Nat.zero_add]
  · rw [hswap, Nat.zero_add]
  · rw [hcount, sum_map_one, Nat.zero_add]
  · rw [hvol, Nat.zero_add]
  · rw [hnonvol, Nat.zero_add]
  · rw [hempty, Nat.zero_add]

/-- Field totals of a `PrintMalloc` zone bucket: modular sums over the
MALLOC entries whose `regionDetail` is the bucket key; the purge sub-totals
are never accumulated there. -/
theorem mallocBuckets_fields (l : List VmmapEntry) (k : String) :
    (mallocBuckets l k).vsize =
      ((l.filter (fun e => IsMalloc e && e.regionDetail == k)).map
        (fun e => e.vsize)).sum % U64 ∧
    (mallocBuckets l k).rss =
      ((l.filter (fun e => IsMalloc e && e.regionDetail == k)).map
        (fun e => e.rss)).sum % U64 ∧
    (mallocBuckets l k).dirty =
      ((l.filter (fun e => IsMalloc e && e.regionDetail == k)).map
        (fun e => e.dirty)).sum % U64 ∧
    (mallocBuckets l k).swap =
      ((l.filter (fun e => IsMalloc e && e.regionDetail == k)).map
        (fun e => e.swap)).sum % U64 ∧
    (mallocBuckets l k).regionCount =
      (l.filter (fun e => IsMalloc e && e.regionDetail == k)).length % U64 ∧
    (mallocBuckets l k).vol = 0 ∧
    (mallocBuckets l k).nonvol = 0 ∧
    (mallocBuckets l k).empty = 0 := by
  have hkey := foldl_key_filter mallocAccum
    (fun e k => IsMalloc e && e.regionDetail == k) mallocStep
    (fun m e k => mallocStep_apply m e k) l (fun _ => {}) k
  have hvsize := foldl_mod_accum mallocAccum
    (fun b => b.vsize) (fun e => e.vsize) (fun _ => true)
    (fun b e => by simp [mallocAccum, addU64])
    (l.filter (fun e => IsMalloc e && e.regionDetail == k)) {} (by decide)
  have hrss := foldl_mod_accum mallocAccum
    (fun b => b.rss) (fun e => e.rss) (fun _ => true)
    (fun b e => by simp [mallocAccum, addU64])
    (l.filter (fun e => IsMalloc e && e.regionDetail == k)) {} (by decide)
  have hdirty := foldl_mod_accum mallocAccum
    (fun b => b.dirty) (fun e => e.dirty) (fun _ => true)
    (fun b e => by simp [mallocAccum, addU64])
    (l.filter (fun e => IsMalloc e && e.regionDetail == k)) {} (by decide)
  have hswap := foldl_mod_accum mallocAccum
    (fun b => b.swap) (fun e => e.swap) (fun _ => true)
    (fun b e => by simp [mallocAccum, addU64])
    (l.filter (fun e => IsMalloc e && e.regionDetail == k)) {} (by decide)
  have hcount := foldl_mod_accum mallocAccum
    (fun b => b.regionCount) (fun _ => 1) (fun _ => true)
    (fun b e => by simp [mallocAccum, addU64])
    (l.filter (fun e => IsMalloc e && e.regionDetail == k)) {} (by decide)
  have hvol := foldl_mod_accum mallocAccum
    (fun b => b.vol) (fun e => e.vsize) (fun _ => false)
    (fun b e => by simp [mallocAccum])
    (l.filter (fun e => IsMalloc e && e.regionDetail == k)) {} (by decide)
  have hnonvol := foldl_mod_accum mallocAccum
    (fun b => b.nonvol) (fun e => e.vsize) (fun _ => false)
    (fun b e => by simp [mallocAccum])
    (l.filter (fun e => IsMalloc e && e.regionDetail == k)) {} (by decide)
  have hempty := foldl_mod_accum mallocAccum
    (fun b => b.empty) (fun e => e.vsize) (fun _ => false)
    (fun b e => by simp [mallocAccum])
    (l.filter (fun e => IsMalloc e && e.regionDetail == k)) {} (by decide)
  unfold mallocBuckets
  rw [hkey]
  simp only [List.filter_true] at hvsize hrss hdirty hswap hcount
  simp only [List.filter_false] at hvol hnonvol hempty
  refine ⟨?_, ?_, ?_, ?_, ?_, ?_, ?_, ?_⟩
  · rw [hvsize, Nat.zero_add]
  · rw [hrss, Nat.zero_add]
  · rw [hdirty, Nat.zero_add]
  · rw [hswap, Nat.zero_add]
  · rw [hcount, sum_map_one, Nat.zero_add]
  · rw [hvol]; rfl
  · rw [hnonvol]; rfl
  · rw [hempty]; rfl

/-- C2 (amended): every bucket's `virtualSize`, `residentSize`,
`dirtySize`, `swapSize` equal the sum of that field over exactly the
entries whose key matches the bucket key, and `count` the number of such
entries — all reduced modulo `2 ^ 64` (`size_t` accumulation), hence exact
whenever the mathematical sum is below `2 ^ 64`; the totals are invariant
under any permutation of the entry sequence; and the spec's concrete
two-entry `DefaultMallocZone` scenario holds exactly. -/
theorem summary_bucket_totals :
    (∀ (l : List VmmapEntry) (k : String),
      (summaryBuckets l k).vsize =
        ((l.filter (fun e => e.regionType == k)).map
          (fun e => e.vsize)).sum % U64 ∧
      (summaryBuckets l k).rss =
        ((l.filter (fun e => e.regionType == k)).map
          (fun e => e.rss)).sum % U64 ∧
      (summaryBuckets l k).dirty =
        ((l.filter (fun e => e.regionType == k)).map
          (fun e => e.dirty)).sum % U64 ∧
      (summaryBuckets l k).swap =
        ((l.filter (fun e => e.regionType == k)).map
          (fun e => e.swap)).sum % U64 ∧
      (summaryBuckets l k).regionCount =
        (l.filter (fun e => e.regionType == k)).length % U64) ∧
    (∀ (l : List VmmapEntry) (k : String),
      (mallocBuckets l k).vsize =
        ((l.filter (fun e => IsMalloc e && e.regionDetail == k)).map
          (fun e => e.vsize)).sum % U64 ∧
      (mallocBuckets l k).rss =
        ((l.filter (fun e => IsMalloc e && e.regionDetail == k)).map
          (fun e => e.rss)).sum % U64 ∧
      (mallocBuckets l k).dirty =
        ((l.filter (fun e => IsMalloc e && e.regionDetail == k)).map
          (fun e => e.dirty)).sum % U64 ∧
      (mallocBuckets l k).swap =
        ((l.filter (fun e => IsMalloc e && e.regionDetail == k)).map
          (fun e => e.swap)).sum % U64 ∧
      (mallocBuckets l k).regionCount =
        (l.filter (fun e => IsMalloc e && e.regionDetail == k)).length % U64) ∧
    (∀ (l1 l2 : List VmmapEntry), l1.Perm l2 → ∀ k : String,
      (summaryBuckets l1 k).vsize = (summaryBuckets l2 k).vsize ∧
      (summaryBuckets l1 k).rss = (summaryBuckets l2 k).rss ∧
      (summaryBuckets l1 k).dirty = (summaryBuckets l2 k).dirty ∧
      (summaryBuckets l1 k).swap = (summaryBuckets l2 k).swap ∧
      (summaryBuckets l1 k).regionCount = (summaryBuckets l2 k).regionCount ∧
      (mallocBuckets l1 k).vsize = (mallocBuckets l2 k).vsize ∧
      (mallocBuckets l1 k).rss = (mallocBuckets l2 k).rss ∧
      (mallocBuckets l1 k).dirty = (mallocBuckets l2 k).dirty ∧
      (mallocBuckets l1 k).swap = (mallocBuckets l2 k).swap ∧
      (mallocBuckets l1 k).regionCount = (mallocBuckets l2 k).regionCount) ∧
    (mallocBuckets [zoneEntry1, zoneEntry2] "DefaultMallocZone").vsize = 300 ∧
    (mallocBuckets [zoneEntry1, zoneEntry2] "DefaultMallocZone").regionCount
      = 2 := by
  refine ⟨?_, ?_, ?_, by decide, by decide⟩
  · intro l k
    obtain ⟨h1, h2, h3, h4, h5, -, -, -⟩ := summaryBuckets_fields l k
    exact ⟨h1, h2, h3, h4, h5⟩
  · intro l k
    obtain ⟨h1, h2, h3, h4, h5, -, -, -⟩ := mallocBuckets_fields l k
    exact ⟨h1, h2, h3, h4, h5⟩
  · intro l1 l2 hp k
    have hsum : ∀ (p : VmmapEntry → Bool) (g : VmmapEntry → Nat),
        ((l1.filter p).map g).sum = ((l2.filter p).map g).sum :=
      fun p g => ((hp.filter p).map g).sum_eq
    have hlen : ∀ (p : VmmapEntry → Bool),
        (l1.filter p).length = (l2.filter p).length :=
      fun p => (hp.filter p).length_eq
    obtain ⟨a1, a2, a3, a4, a5, -, -, -⟩ := summaryBuckets_fields l1 k
    obtain ⟨b1, b2, b3, b4, b5, -, -, -⟩ := summaryBuckets_fields l2 k
    obtain ⟨c1, c2, c3, c4, c5, -, -, -⟩ := mallocBuckets_fields l1 k
    obtain ⟨d1, d2, d3, d4, d5, -, -, -⟩ := mallocBuckets_fields l2 k
    refine ⟨?_, ?_, ?_, ?_, ?_, ?_, ?_, ?_, ?_, ?_⟩
    · rw [a1, b1, hsum]
    · rw [a2, b2, hsum]
    · rw [a3, b3, hsum]
    · rw [a4, b4, hsum]
    · rw [a5, b5, hlen]
    · rw [c1, d1, hsum]
    · rw [c2, d2, hsum]
    · rw [c3, d3, hsum]
    · rw [c4, d4, hsum]
    · rw [c5, d5, hlen]

/-- C2 witness: the permutation clause applied to a concrete swap of the
two scenario entries. -/
theorem summary_bucket_totals_witness :
    (summaryBuckets [zoneEntry1, zoneEntry2] "MALLOC").vsize =
      (summaryBuckets [zoneEntry2, zoneEntry1] "MALLOC").vsize ∧
    (mallocBuckets [zoneEntry1, zoneEntry2] "DefaultMallocZone").regionCount =
      (mallocBuckets [zoneEntry2, zoneEntry1] "DefaultMallocZone").regionCount := by
  have h := summary_bucket_totals.2.2.1 [zoneEntry1, zoneEntry2]
    [zoneEntry2, zoneEntry1] (List.Perm.swap zoneEntry2 zoneEntry1 [])
  exact ⟨(h "MALLOC").1, (h "DefaultMallocZone").2.2.2.2.2.2.2.2.2⟩

/-- Inversion for a successful `Except` bind. -/
theorem except_bind_ok {ε α β : Type} (m : Except ε α) (k : α → Except ε β)
    (b : β) (h : (m >>= k) = .ok b) : ∃ a, m = .ok a ∧ k a = .ok b := by
  cases m with
  | ok a => exact ⟨a, rfl, h⟩
  | error e => exact Except.noConfusion h

/-- Inversion for a successful `runMap`: the parsed raw records and the
converted entries exist, and the result is the reclassification of the
latter. -/
theorem runMap_inv (hostPageSize : Nat) (lines : List String)
    (entries : List VmmapEntry) (h : runMap hostPageSize lines = .ok entries) :
    ∃ raws vs, parseLines lines = .ok raws ∧
      convertAll hostPageSize raws = .ok vs ∧ entries = secondPass vs := by
  unfold runMap at h
  obtain ⟨raws, h1, h⟩ := except_bind_ok _ _ _ h
  obtain ⟨vs, h2, h⟩ := except_bind_ok _ _ _ h
  exact ⟨raws, vs, h1, h2, (Except.ok.inj h).symm⟩

/-- Every entry produced by `convertAll` is the conversion of some emitted
raw record. -/
theorem convertAll_mem (hostPageSize : Nat) (raws : List LinuxEntry)
    (vs : List VmmapEntry) (h : convertAll hostPageSize raws = .ok vs) :
    ∀ v ∈ vs, ∃ r ∈ raws, LinuxToVmmap hostPageSize r = .ok v := by
  induction raws generalizing vs with
  | nil =>
    unfold convertAll at h
    rw [← Except.ok.inj h]
    intro v hv
    exact absurd hv (List.not_mem_nil v)
  | cons r rs ih =>
    unfold convertAll at h
    obtain ⟨v0, h1, h⟩ := except_bind_ok _ _ _ h
    obtain ⟨vs', h2, h⟩ := except_bind_ok _ _ _ h
    rw [← Except.ok.inj h]
    intro v hv
    rcases List.mem_cons.mp hv with rfl | hv'
    · exact ⟨r, List.mem_cons_self r rs, h1⟩
    · obtain ⟨r', hr', hc⟩ := ih vs' h2 v hv'
      exact ⟨r', List.mem_cons_of_mem r hr', hc⟩

/-- Field facts about a successful `LinuxToVmmap` conversion: placeholder
share mode and purge state, addresses copied from the raw record, and the
page-size resolution rule. -/
theorem LinuxToVmmap_fields (hostPageSize : Nat) (r : LinuxEntry)
    (v : VmmapEntry) (h : LinuxToVmmap hostPageSize r = .ok v) :
    v.shrmod = "NUL" ∧ v.purge = "" ∧
    v.startAddress = r.start ∧ v.endAddress = r.endA ∧
    (tagsLookup r.tags "KernelPageSize" = none → v.pageSize = hostPageSize) ∧
    (∀ s, tagsLookup r.tags "KernelPageSize" = some s →
      ParseSize s = .ok v.pageSize) := by
  unfold LinuxToVmmap at h
  obtain ⟨pageSize, hp, h⟩ := except_bind_ok _ _ _ h
  obtain ⟨vsize, hv, h⟩ := except_bind_ok _ _ _ h
  obtain ⟨rss, hr, h⟩ := except_bind_ok _ _ _ h
  obtain ⟨sharedDirty, hsd, h⟩ := except_bind_ok _ _ _ h
  obtain ⟨dirty, hd, h⟩ := except_bind_ok _ _ _ h
  obtain ⟨swap, hs, h⟩ := except_bind_ok _ _ _ h
  obtain ⟨rt, hrt, h⟩ := except_bind_ok _ _ _ h
  have hv' := Except.ok.inj h
  refine ⟨by rw [← hv'], by rw [← hv'], by rw [← hv'], by rw [← hv'], ?_, ?_⟩
  · intro hnone
    unfold getSizeTag at hp
    rw [hnone] at hp
    rw [← hv']
    exact (Except.ok.inj hp).symm
  · intro str hsome
    unfold getSizeTag at hp
    rw [hsome] at hp
    rw [← hv']
    exact hp

/-- `prefixPass` only rewrites `regionDetail`: all other fields survive. -/
theorem prefixPass_preserves (a : VmmapEntry) :
    (prefixPass a).shrmod = a.shrmod ∧ (prefixPass a).purge = a.purge ∧
    (prefixPass a).startAddress = a.startAddress ∧
    (prefixPass a).endAddress = a.endAddress ∧
    (prefixPass a).pageSize = a.pageSize := by
  unfold prefixPass
  split <;> exact ⟨rfl, rfl, rfl, rfl, rfl⟩

/-- `relabelPass` only rewrites `regionType`: all other fields survive. -/
theorem relabelPass_preserves (files : List String) (a : VmmapEntry) :
    (relabelPass files a).shrmod = a.shrmod ∧
    (relabelPass files a).purge = a.purge ∧
    (relabelPass files a).startAddress = a.startAddress ∧
    (relabelPass files a).endAddress = a.endAddress ∧
    (relabelPass files a).pageSize = a.pageSize := by
  unfold relabelPass
  split
  · split <;> exact ⟨rfl, rfl, rfl, rfl, rfl⟩
  · exact ⟨rfl, rfl, rfl, rfl, rfl⟩

/-- Every entry of the two-pass reclassification output agrees with some
input entry on share mode, purge state, addresses and page size. -/
theorem secondPass_mem_fields (l : List VmmapEntry) :
    ∀ e' ∈ secondPass l, ∃ e ∈ l,
      e'.shrmod = e.shrmod ∧ e'.purge = e.purge ∧
      e'.startAddress = e.startAddress ∧ e'.endAddress = e.endAddress ∧
      e'.pageSize = e.pageSize := by
  intro e' h
  unfold secondPass at h
  obtain ⟨x, hx, rfl⟩ := List.mem_map.mp h
  obtain ⟨e, he, rfl⟩ := List.mem_map.mp hx
  obtain ⟨r1, r2, r3, r4, r5⟩ :=
    relabelPass_preserves (execFiles (l.map prefixPass)) (prefixPass e)
  obtain ⟨p1, p2, p3, p4, p5⟩ := prefixPass_preserves e
  exact ⟨e, he, by rw [r1, p1], by rw [r2, p2], by rw [r3, p3],
    by rw [r4, p4], by rw [r5, p5]⟩

/-- Looking up the just-inserted key returns the just-inserted value. -/
theorem tagsLookup_insert (tags : List (String × String)) (k v : String) :
    tagsLookup (tagsInsert tags k v) k = some v := by
  unfold tagsInsert
  by_cases h : tags.any (fun p => p.1 == k) = true
  · rw [if_pos h]
    induction tags with
    | nil => simp at h
    | cons p tags ih =>
      rw [List.map_cons]
      by_cases hp : (p.1 == k) = true
      · rw [if_pos hp]
        unfold tagsLookup
        rw [List.find?_cons_of_pos _ (by simp)]
        rfl
      · rw [if_neg hp]
        unfold tagsLookup
        rw [List.find?_cons_of_neg _ (by simpa using hp)]
        apply ih
        rw [List.any_cons] at h
        rcases Bool.or_eq_true _ _ ▸ h with h' | h'
        · exact absurd h' hp
        · exact h' 
  · rw [if_neg h]
    rw [Bool.not_eq_true, List.any_eq_false] at h
    induction tags with
    | nil =>
      unfold tagsLookup
      rw [List.nil_append, List.find?_cons_of_pos _ (by simp)]
      rfl
    | cons p tags ih =>
      rw [List.cons_append]
      unfold tagsLookup
      rw [List.find?_cons_of_neg _ (by simpa using h p (by simp))]
      exact ih (fun q hq => h q (List.mem_cons_of_mem p hq))

/-- C7 (amended): a colon-delimited detail line arriving while no record
is open is not ignored — the parser stays in the no-emission state but
stores the pair into the shared accumulator's attribute map, where the
inserted label maps to the inserted value (and, the accumulator never being
cleared, it surfaces in the first emitted record, as the counterexample
shows concretely). -/
theorem preheader_details_recorded (st : MapState) (line : String)
    (i j : Nat)
    (_hopen : st.firstLine = true)
    (hnohdr : matchHeader line = none)
    (hcolon : line.data.findIdx? (fun c => c == ':') = some i)
    (hval : (line.data.drop (i + 1)).findIdx? (fun c => c != ' ') = some j) :
    processLine st line = .ok { st with current := { st.current with tags := tagsInsert st.current.tags (String.mk (line.data.take i)) (String.mk (line.data.drop (i + 1 + j))) } } ∧
    (processLine st line).map (fun st' => st'.entries) = .ok st.entries ∧
    tagsLookup (tagsInsert st.current.tags
        (String.mk (line.data.take i))
        (String.mk (line.data.drop (i + 1 + j))))
      (String.mk (line.data.take i)) =
      some (String.mk (line.data.drop (i + 1 + j))) := by
  have hdet : handleDetailLine line.data st.current.tags =
      .ok (tagsInsert st.current.tags (String.mk (line.data.take i))
        (String.mk (line.data.drop (i + 1 + j)))) := by
    unfold handleDetailLine
    rw [hcolon]
    show (match List.findIdx? (fun c => c != ' ') (List.drop (i + 1) line.data) with
      | none => Except.error "out_of_range"
      | some j => Except.ok (tagsInsert st.current.tags (String.mk (line.data.take i)) (String.mk (line.data.drop (i + 1 + j))))) = _
    rw [hval]
  have hproc : processLine st line = .ok { st with current := { st.current with tags := tagsInsert st.current.tags (String.mk (line.data.take i)) (String.mk (line.data.drop (i + 1 + j))) } } := by
    unfold processLine
    rw [hnohdr, hdet]
  refine ⟨hproc, ?_, tagsLookup_insert _ _ _⟩
  rw [hproc]
  rfl

/-- C7 witness: the pre-header detail line `"Size: 4 kB"` processed in the
initial state emits nothing and records `Size → 4 kB`. -/
theorem preheader_details_recorded_witness :
    (processLine initState "Size: 4 kB").map (fun st' => st'.entries) =
      .ok initState.entries ∧
    tagsLookup (tagsInsert initState.current.tags
        (String.mk ("Size: 4 kB".data.take 4))
        (String.mk ("Size: 4 kB".data.drop 6)))
      (String.mk ("Size: 4 kB".data.take 4)) =
      some (String.mk ("Size: 4 kB".data.drop 6)) := by
  have h := preheader_details_recorded initState "Size: 4 kB" 4 1
    rfl rfl (by decide) (by decide)
  exact ⟨h.2.1, h.2.2⟩

/-- C8: every entry produced by the pipeline carries the fixed placeholders
`shareMode = "NUL"` and `purgeState = ""`, and consequently the purge
sub-totals of every summary bucket (whole-process and malloc-zone) are 0. -/
theorem placeholder_share_purge (hostPageSize : Nat) (lines : List String)
    (entries : List VmmapEntry)
    (h : runMap hostPageSize lines = .ok entries) :
    (∀ e ∈ entries, e.shrmod = "NUL" ∧ e.purge = "") ∧
    (∀ k : String,
      (summaryBuckets entries k).vol = 0 ∧
      (summaryBuckets entries k).nonvol = 0 ∧
      (summaryBuckets entries k).empty = 0 ∧
      (mallocBuckets entries k).vol = 0 ∧
      (mallocBuckets entries k).nonvol = 0 ∧
      (mallocBuckets entries k).empty = 0) := by
  obtain ⟨raws, vs, h1, h2, rfl⟩ := runMap_inv _ _ _ h
  have hmem : ∀ e ∈ secondPass vs, e.shrmod = "NUL" ∧ e.purge = "" := by
    intro e he
    obtain ⟨e0, he0, f1, f2, -, -, -⟩ := secondPass_mem_fields vs e he
    obtain ⟨r, hr, hc⟩ := convertAll_mem _ _ _ h2 e0 he0
    obtain ⟨g1, g2, -⟩ := LinuxToVmmap_fields _ _ _ hc
    exact ⟨by rw [f1, g1], by rw [f2, g2]⟩
  refine ⟨hmem, ?_⟩
  intro k
  obtain ⟨-, -, -, -, -, hvol, hnonvol, hempty⟩ :=
    summaryBuckets_fields (secondPass vs) k
  obtain ⟨-, -, -, -, -, mvol, mnonvol, mempty⟩ :=
    mallocBuckets_fields (secondPass vs) k
  have hfil : ∀ pu : String, pu ≠ "" →
      ((secondPass vs).filter (fun e => e.regionType == k)).filter
        (fun e => e.purge == pu) = [] := by
    intro pu hpu
    rw [List.filter_eq_nil_iff]
    intro a ha
    have ha' := (List.mem_filter.mp ha).1
    rw [(hmem a ha').2]
    intro hq
    exact hpu (beq_iff_eq.mp hq).symm
  refine ⟨?_, ?_, ?_, mvol, mnonvol, mempty⟩
  · rw [hvol, hfil "V" (by decide)]
    rfl
  · rw [hnonvol, hfil "N" (by decide)]
    rfl
  · rw [hempty, hfil "E" (by decide)]
    rfl

/-- C8 witness: the placeholder facts on the entries of a concrete run. -/
theorem placeholder_share_purge_witness :
    (∀ e ∈ (runMap 4096 validLines).toOption.getD [],
      e.shrmod = "NUL" ∧ e.purge = "") ∧
    (summaryBuckets ((runMap 4096 validLines).toOption.getD [])
      "VM_ALLOCATE").vol = 0 :=
  ⟨(placeholder_share_purge 4096 validLines
      ((runMap 4096 validLines).toOption.getD []) (by rfl)).1,
   ((placeholder_share_purge 4096 validLines
      ((runMap 4096 validLines).toOption.getD []) (by rfl)).2
      "VM_ALLOCATE").1⟩

/-- C6 (amended): the code itself does not validate addresses or page
sizes (see the counterexample), but whenever every parsed record has
`start < end`, the host page size is positive and every `KernelPageSize`
attribute parses to the host page size, every emitted entry satisfies
`startAddress < endAddress` and `pageSize = hostPageSize > 0` — in
particular all entries share one page size. -/
theorem entry_address_pagesize_invariants (hostPageSize : Nat)
    (lines : List String) (raws : List LinuxEntry)
    (entries : List VmmapEntry)
    (hparse : parseLines lines = .ok raws)
    (hrun : runMap hostPageSize lines = .ok entries)
    (haddr : ∀ r ∈ raws, r.start < r.endA)
    (hpos : 0 < hostPageSize)
    (hkpz : ∀ r ∈ raws, kernelPageOk hostPageSize r = true) :
    ∀ e ∈ entries, e.startAddress < e.endAddress ∧
      e.pageSize = hostPageSize ∧ 0 < e.pageSize := by
  obtain ⟨raws', vs, h1, h2, rfl⟩ := runMap_inv _ _ _ hrun
  rw [hparse] at h1
  obtain rfl : raws = raws' := Except.ok.inj h1
  intro e he
  obtain ⟨e0, he0, -, -, f3, f4, f5⟩ := secondPass_mem_fields vs e he
  obtain ⟨r, hr, hc⟩ := convertAll_mem _ _ _ h2 e0 he0
  obtain ⟨-, -, g3, g4, g5, g6⟩ := LinuxToVmmap_fields _ _ _ hc
  have hps : e0.pageSize = hostPageSize := by
    rcases hlk : tagsLookup r.tags "KernelPageSize" with _ | sv
    · exact g5 hlk
    · have hk := hkpz r hr
      unfold kernelPageOk at hk
      rw [hlk] at hk
      have hk2 : (match ParseSize sv with
        | .ok n => n == hostPageSize
        | .error _ => false) = true := hk
      rw [g6 sv hlk] at hk2
      have hk3 : (e0.pageSize == hostPageSize) = true := hk2
      exact beq_iff_eq.mp hk3
  refine ⟨?_, ?_, ?_⟩
  · rw [f3, f4, g3, g4]
    exact haddr r hr
  · rw [f5, hps]
  · rw [f5, hps]
    exact hpos

/-- C6 witness: the amended invariants on the entries of a concrete
well-formed input. -/
theorem entry_address_pagesize_invariants_witness :
    ((runMap 4096 validLines).toOption.getD []).all
      (fun e => decide (e.startAddress < e.endAddress) &&
        (e.pageSize == 4096) && decide (0 < e.pageSize)) = true := by
  have h := entry_address_pagesize_invariants 4096 validLines
    ((parseLines validLines).toOption.getD [])
    ((runMap 4096 validLines).toOption.getD [])
    (by rfl) (by rfl) (by decide) (by decide) (by decide)
  rw [List.all_eq_true]
  intro e he
  obtain ⟨h1, h2, h3⟩ := h e he
  simp [h1, h2, h3]

end Vmmap
